import Mathlib

/-!
Shallow embedding of `src/stage5.py` — a VFS shell emulator.

The Python program keeps a mutable tree of `VFSNode` objects linked by
`children` dictionaries and `parent` back-pointers.  We embed the object
graph as an arena: a list of nodes indexed by `Nat` ids, with `children`
an insertion-ordered association list from names to ids (modelling the
Python `dict`) and `parent` an optional id.  Mutating operations return a
new arena.  Ambient process state (the environment for `expand_vars`, the
clock for `date`, the calendar renderer for `cal`) is carried as explicit
fields of the shell state, since the Python code reads it from the OS.
-/

namespace Stage5

/-- Embeds class `VFSNode` of stage5.py: `name`, `is_dir`, `children`
(dict name → node, here name → arena id), `content`, `mode`
(a Python int, so `Int`), `parent` back-reference (arena id). -/
structure VNode where
  name : String
  is_dir : Bool
  children : List (String × Nat)
  content : String
  mode : Int
  parent : Option Nat
deriving Repr, DecidableEq

/-- The arena of nodes; a node's id is its index in the list. -/
abbrev Store := List VNode

/-- Lookup in a Python-dict modelled as an insertion-ordered association
list with unique keys (first match wins). -/
def dictLookup (d : List (String × Nat)) (k : String) : Option Nat :=
  match d with
  | [] => none
  | (k', v) :: rest => if k' = k then some v else dictLookup rest k

/-- Python `k in d` for the children dict. -/
def dictMem (d : List (String × Nat)) (k : String) : Bool :=
  (dictLookup d k).isSome

/-- Python `d[k] = v`: replace the binding if the key is present,
otherwise append it (dicts preserve insertion order). -/
def dictInsert (d : List (String × Nat)) (k : String) (v : Nat) :
    List (String × Nat) :=
  match d with
  | [] => [(k, v)]
  | (k', v') :: rest =>
    if k' = k then (k, v) :: rest else (k', v') :: dictInsert rest k v

/-- `node.parent` read through the arena. -/
def parentOf (s : Store) (id : Nat) : Option Nat :=
  (s[id]?).bind VNode.parent

/-- Python `p.replace("\\", "/")` — single-character replacement is a
character-wise map. -/
def pyReplaceBS (p : String) : String :=
  String.mk (p.data.map (fun c => if c = '\\' then '/' else c))

/-- Python `p.split("/")`: split on slashes keeping empty pieces
(`"".split("/") == [""]`). -/
def splitOnSlash (cs : List Char) : List (List Char) :=
  match cs with
  | [] => [[]]
  | c :: rest =>
    let r := splitOnSlash rest
    if c = '/' then [] :: r
    else
      match r with
      | [] => [[c]]
      | t :: ts => (c :: t) :: ts

/-- Python `path.startswith("/")` (single-character test). -/
def startsWithSlash (p : String) : Bool :=
  p.data.head? = some '/'

/-- Embeds `_split_vfs_path` of stage5.py: backslashes become slashes,
`""` and `"/"` give no segments, empty segments are dropped. -/
def _split_vfs_path (p : String) : List String :=
  let p := pyReplaceBS p
  if p = "" ∨ p = "/" then []
  else ((splitOnSlash p.data).map String.mk).filter (fun part => part ≠ "")

/-- The `while node.parent is not None` walk at the top of
`resolve_vfs_path`, with fuel bounding the number of parent steps (the
well-formedness predicate `wf` below guarantees `s.length` steps
suffice, mirroring termination of the Python loop on an acyclic tree). -/
def climb (s : Store) : Nat → Nat → Nat
  | 0, node => node
  | fuel + 1, node =>
    match parentOf s node with
    | some p => climb s fuel p
    | none => node

/-- The `for part in parts` loop of `resolve_vfs_path`.  A dangling id
(no node in the arena — impossible for the object graph the Python code
builds) resolves like a missing child. -/
def resolveLoop (s : Store) (node : Nat) : List String → Option Nat
  | [] => some node
  | part :: rest =>
    if part = "." then resolveLoop s node rest
    else if part = ".." then
      match parentOf s node with
      | some p => resolveLoop s p rest
      | none => resolveLoop s node rest
    else
      match s[node]? with
      | none => none
      | some n =>
        if n.is_dir then
          match dictLookup n.children part with
          | some cid => resolveLoop s cid rest
          | none => none
        else none

/-- Embeds `resolve_vfs_path` of stage5.py. -/
def resolve_vfs_path (s : Store) (cwd : Nat) (path : String) : Option Nat :=
  let start := if startsWithSlash path then climb s s.length cwd else cwd
  resolveLoop s start (_split_vfs_path path)

/-- The `parent_path` / `parent_node` computation of `make_vfs_dir`
(the two conditional expressions of the Python source, verbatim). -/
def mkdirParent (s : Store) (cwd : Nat) (path : String)
    (parent_parts : List String) : Option Nat :=
  if parent_parts ≠ [] then
    let parent_path :=
      if startsWithSlash path then "/" ++ String.intercalate "/" parent_parts
      else String.intercalate "/" parent_parts
    resolve_vfs_path s cwd parent_path
  else
    if startsWithSlash path then resolve_vfs_path s cwd "/" else some cwd

/-- Embeds `make_vfs_dir` of stage5.py.  Returns the updated arena and
the new node's id, or `none` on error (Python returns the node or
`None`; the arena is returned explicitly since Python mutates in
place). -/
def make_vfs_dir (s : Store) (cwd : Nat) (path : String) (mode : Int) :
    Option (Store × Nat) :=
  let parts := _split_vfs_path path
  match parts.getLast? with
  | none => none
  | some name =>
    let parent_parts := parts.dropLast
    match mkdirParent s cwd path parent_parts with
    | none => none
    | some pid =>
      match s[pid]? with
      | none => none
      | some pn =>
        if pn.is_dir then
          if dictMem pn.children name then none
          else
            let newId := s.length
            let newNode : VNode := ⟨name, true, [], "", mode, some pid⟩
            some ((s.set pid
              { pn with children := dictInsert pn.children name newId })
              ++ [newNode], newId)
        else none

/-- Store-threaded version of the `for` loop of `resolve_vfs_path`,
making the (read-only) state passing of the Python method explicit. -/
def resolveLoopS (s : Store) (node : Nat) : List String → Store × Option Nat
  | [] => (s, some node)
  | part :: rest =>
    if part = "." then resolveLoopS s node rest
    else if part = ".." then
      match parentOf s node with
      | some p => resolveLoopS s p rest
      | none => resolveLoopS s node rest
    else
      match s[node]? with
      | none => (s, none)
      | some n =>
        if n.is_dir then
          match dictLookup n.children part with
          | some cid => resolveLoopS s cid rest
          | none => (s, none)
        else (s, none)

/-- Store-threaded `resolve_vfs_path`: the same statements as the Python
function with the arena passed along every step, so that the frame
property (the tree is untouched) is a statement, not a convention. -/
def resolve_vfs_pathS (s : Store) (cwd : Nat) (path : String) :
    Store × Option Nat :=
  let start := if startsWithSlash path then climb s s.length cwd else cwd
  resolveLoopS s start (_split_vfs_path path)

/-- Per-node well-formedness for the arena: the parent of node `i` has a
smaller id (node objects are created after their parents, both during
ingestion and by `mkdir`), only node `0` (the root) is parentless, and
child ids are in range. -/
def nodeWfB (s : Store) (i : Nat) (n : VNode) : Bool :=
  (match n.parent with
   | some p => decide (p < i)
   | none => decide (i = 0)) &&
  n.children.all (fun pr => decide (pr.2 < s.length))

/-- Arena well-formedness: nonempty, rooted at id 0, acyclic by the
id order.  Every store the program builds satisfies this. -/
def wf (s : Store) : Prop :=
  0 < s.length ∧ ∀ i, (h : i < s.length) → nodeWfB s i (s.get ⟨i, h⟩) = true

instance (s : Store) : Decidable (wf s) := by
  unfold wf; infer_instance

/-! ### Python `int(s, base)` and the chmod mode parser -/

/-- Characters Python's `str.strip` / `int` treat as ASCII whitespace. -/
def isPySpace (c : Char) : Bool :=
  c = ' ' ∨ c = '\t' ∨ c = '\n' ∨ c = '\x0d' ∨ c = '\x0b' ∨ c = '\x0c'

/-- Digit value of a character, as Python `int` reads digits. -/
def digitVal (c : Char) : Option Nat :=
  if '0' ≤ c ∧ c ≤ '9' then some (c.toNat - '0'.toNat)
  else if 'a' ≤ c ∧ c ≤ 'z' then some (c.toNat - 'a'.toNat + 10)
  else if 'A' ≤ c ∧ c ≤ 'Z' then some (c.toNat - 'A'.toNat + 10)
  else none

/-- A nonempty run of digits below `base`, most significant first. -/
def parseDigits (base : Nat) (cs : List Char) : Option Nat :=
  match cs with
  | [] => none
  | _ =>
    cs.foldl
      (fun acc c =>
        match acc, digitVal c with
        | some a, some d => if d < base then some (a * base + d) else none
        | _, _ => none)
      (some 0)

/-- Models the Python builtin `int(s, base)` as used by `cmd_chmod` and
`cmd_cal`: optional surrounding ASCII whitespace, an optional sign, an
optional `0o`/`0O` prefix when `base = 8`, then a nonempty digit run
below the base.  (Digit-group underscores, which no caller of this
program produces, are not modelled.)  `none` stands for `ValueError`. -/
def pyInt (s : String) (base : Nat) : Option Int :=
  let cs := s.data.dropWhile isPySpace
  let cs := (cs.reverse.dropWhile isPySpace).reverse
  let signAndRest : Int × List Char :=
    match cs with
    | '-' :: rest => (-1, rest)
    | '+' :: rest => (1, rest)
    | _ => (1, cs)
  let body :=
    if base = 8 then
      match signAndRest.2 with
      | '0' :: 'o' :: rest => rest
      | '0' :: 'O' :: rest => rest
      | other => other
    else signAndRest.2
  match parseDigits base body with
  | some n => some (signAndRest.1 * (n : Int))
  | none => none

/-- The mode-parsing logic of `ShellGUI.cmd_chmod` (stage5.py lines
388–396): leading `0` (`mode_str.startswith("0")`, a single-character
prefix test) → base 8; all characters in `"01234567"` → base 8;
otherwise base 10. -/
def parse_chmod_mode (mode_str : String) : Option Int :=
  if mode_str.data.head? = some '0' then pyInt mode_str 8
  else if mode_str.data.all (fun c => ("01234567".data).contains c) then
    pyInt mode_str 8
  else pyInt mode_str 10

/-! ### `format_mode` -/

/-- Python `m & (2^k - 1)` on arbitrary ints (two's complement) is
`m mod 2^k` with a nonnegative result. -/
def pyAndMask (m : Int) (k : Nat) : Int := Int.emod m (2 ^ k)

/-- Python `m >> k` on arbitrary ints is floor division by `2^k`. -/
def pyShr (m : Int) (k : Nat) : Int := Int.fdiv m (2 ^ k)

/-- Python `who & 4` / `& 2` / `& 1` tested for truthiness: bit `b`. -/
def hasBit (who : Int) (b : Nat) : Bool :=
  Int.emod (Int.fdiv who (2 ^ b)) 2 = 1

/-- `format(n, "03o")`: octal digits, zero-padded to width 3. -/
def octal3 (n : Nat) : String :=
  let d := Nat.toDigits 8 n
  String.mk (List.replicate (3 - d.length) '0' ++ d)

/-- One `rwx` triple of `format_mode`. -/
def rwx (who : Int) : String :=
  (if hasBit who 2 then "r" else "-") ++
  (if hasBit who 1 then "w" else "-") ++
  (if hasBit who 0 then "x" else "-")

/-- Embeds `format_mode` of stage5.py. -/
def format_mode (mode : Int) : String :=
  let octal := octal3 (Int.toNat (pyAndMask mode 9))
  octal ++ " (" ++ rwx (pyShr mode 6) ++ rwx (pyAndMask (pyShr mode 3) 3)
    ++ rwx (pyAndMask mode 3) ++ ")"

/-! ### Variable expansion and tokenization -/

/-- First character of a `$NAME` reference: `[A-Za-z_]`. -/
def isVarStart (c : Char) : Bool := c.isAlpha ∨ c = '_'

/-- Later characters of a `$NAME` reference: `[A-Za-z0-9_]`. -/
def isVarChar (c : Char) : Bool := c.isAlphanum ∨ c = '_'

/-- `os.environ.get(name)` over the ambient environment snapshot. -/
def envGet (env : List (String × String)) (k : String) : Option String :=
  match env with
  | [] => none
  | (k', v) :: rest => if k' = k then some v else envGet rest k

/-- `dropWhile` never lengthens a list (termination helper). -/
theorem dropWhile_length_le (p : Char → Bool) (l : List Char) :
    (l.dropWhile p).length ≤ l.length := by
  induction l with
  | nil => simp [List.dropWhile]
  | cons c rest ih =>
    by_cases h : p c
    · simp [List.dropWhile, h]
      omega
    · simp [List.dropWhile, h]

/-- Embeds the regex substitution of `expand_vars`: each `$NAME` with
`NAME` matching `[A-Za-z_][A-Za-z0-9_]*` (longest match, left to right,
replacements not rescanned) becomes the environment value, or stays
verbatim when unset.  The fuel argument only drives the structural
recursion: every step consumes at least one character, so any fuel of
at least `cs.length` is exact and the `fuel = 0` branch is unreachable
from `expand_vars`. -/
def expandVarsAux (env : List (String × String)) :
    Nat → List Char → List Char
  | 0, _ => []
  | _ + 1, [] => []
  | fuel + 1, '$' :: cs =>
    match cs with
    | c :: rest =>
      if isVarStart c then
        let tailName := rest.takeWhile isVarChar
        let remaining := rest.dropWhile isVarChar
        let name := String.mk (c :: tailName)
        (match envGet env name with
         | some v => v.data
         | none => '$' :: c :: tailName) ++ expandVarsAux env fuel remaining
      else '$' :: expandVarsAux env fuel (c :: rest)
    | [] => ['$']
  | fuel + 1, c :: rest => c :: expandVarsAux env fuel rest

/-- Embeds `expand_vars` of stage5.py over an explicit environment. -/
def expand_vars (env : List (String × String)) (text : String) : String :=
  String.mk (expandVarsAux env (text.data.length + 1) text.data)

/-- `shlex` whitespace (`' \t\r\n'`). -/
def isShlexSpace (c : Char) : Bool :=
  c = ' ' ∨ c = '\t' ∨ c = '\x0d' ∨ c = '\n'

/-- Lexer mode for the `shlex.split` model. -/
inductive LexMode
  | plain
  | single
  | double
deriving Repr, DecidableEq

/-- Models POSIX `shlex.split` (whitespace splitting, `'…'` literal,
`"…"` with `\"`/`\\` escapes, `\c` escapes outside quotes); `cur` holds
the current token reversed, `started` whether a token is open.  Errors
(`ValueError` texts) are the unmatched-quote and trailing-escape cases.
Fuel drives the structural recursion; every step consumes at least one
character, so fuel of at least `cs.length` is exact and the `fuel = 0`
branch is unreachable from `shlex_split`. -/
def shlexAux : LexMode → Nat → List Char → List Char → Bool →
    Except String (List String)
  | _, 0, _, _, _ => .ok []
  | .plain, _ + 1, [], cur, started =>
    .ok (if started then [String.mk cur.reverse] else [])
  | .plain, fuel + 1, c :: rest, cur, started =>
    if isShlexSpace c then
      if started then
        match shlexAux .plain fuel rest [] false with
        | .ok toks => .ok (String.mk cur.reverse :: toks)
        | .error e => .error e
      else shlexAux .plain fuel rest [] false
    else if c = '\'' then shlexAux .single fuel rest cur true
    else if c = '"' then shlexAux .double fuel rest cur true
    else if c = '\\' then
      match rest with
      | [] => .error "No escaped character"
      | d :: rest' => shlexAux .plain fuel rest' (d :: cur) true
    else shlexAux .plain fuel rest (c :: cur) true
  | .single, _ + 1, [], _, _ => .error "No closing quotation"
  | .single, fuel + 1, c :: rest, cur, started =>
    if c = '\'' then shlexAux .plain fuel rest cur started
    else shlexAux .single fuel rest (c :: cur) started
  | .double, _ + 1, [], _, _ => .error "No closing quotation"
  | .double, fuel + 1, c :: rest, cur, started =>
    if c = '"' then shlexAux .plain fuel rest cur started
    else if c = '\\' then
      match rest with
      | [] => .error "No escaped character"
      | d :: rest' =>
        if d = '"' ∨ d = '\\' then
          shlexAux .double fuel rest' (d :: cur) started
        else shlexAux .double fuel rest' (d :: '\\' :: cur) started
    else shlexAux .double fuel rest (c :: cur) started

/-- `shlex.split(s)` as used by `execute_line`. -/
def shlex_split (s : String) : Except String (List String) :=
  shlexAux .plain (s.data.length + 1) s.data [] false

/-! ### Shell state and commands -/

/-- The mutable session state of `ShellGUI`, plus the ambient process
state the Python code reads from the OS and the Tk widget: `env` is the
`os.environ` snapshot, `nowStr` the formatted `datetime.now()`,
`todayYear`/`todayMonth` the fields of `datetime.today()`, and `calText`
renders `calendar.month` (calendar/date formatting is presentation, not
core — spec §1).  `output` collects the texts passed to `print_output`. -/
structure ShellState where
  store : Store
  cwd : Nat
  history : List String
  output : List String
  env : List (String × String)
  nowStr : String
  todayYear : Int
  todayMonth : Int
  calText : Int → Int → List String
  exiting : Bool

/-- `self.print_output(text)`: appends to the output sink (scrolled-text
insertion is presentation). -/
def print_output (st : ShellState) (text : String) : ShellState :=
  { st with output := st.output ++ [text] }

/-- Embeds `VFSNode.path_from_root`, with fuel bounding the parent walk
as in `climb`. -/
def pathPartsAux (s : Store) : Nat → Nat → List String
  | 0, _ => []
  | fuel + 1, nid =>
    match s[nid]? with
    | none => []
    | some n =>
      match n.parent with
      | none => []
      | some p => n.name :: pathPartsAux s fuel p

/-- `node.path_from_root()`. -/
def path_from_root (s : Store) (nid : Nat) : String :=
  let parts := pathPartsAux s s.length nid
  if parts = [] then "/" else "/" ++ String.intercalate "/" parts.reverse

/-- `self.prompt_text()`. -/
def prompt_text (st : ShellState) : String :=
  let name :=
    match st.store[st.cwd]? with
    | some n => if n.parent ≠ none then n.name else "/"
    | none => "/"
  "vfs:" ++ name ++ "> "

/-- Python `sorted` over child names (lexicographic string order). -/
def insertSorted (x : String) : List String → List String
  | [] => [x]
  | y :: ys => if x ≤ y then x :: y :: ys else y :: insertSorted x ys

/-- `sorted(node.children.keys())`. -/
def sortStrings (l : List String) : List String :=
  l.foldr insertSorted []

/-- The listing loop of `cmd_ls` for a directory node. -/
def lsShow (st : ShellState) (nid : Nat) : ShellState :=
  match st.store[nid]? with
  | none => st
  | some n =>
    if ¬ n.is_dir then print_output st (n.name ++ "\n")
    else
      (sortStrings (n.children.map Prod.fst)).foldl
        (fun acc name =>
          match dictLookup n.children name with
          | some cid =>
            match st.store[cid]? with
            | some child =>
              print_output acc
                (name ++ (if child.is_dir then "/" else "") ++ "\t"
                  ++ format_mode child.mode ++ "\n")
            | none => acc
          | none => acc)
        st

/-- Embeds `ShellGUI.cmd_ls` (extra arguments beyond the first are
ignored, as in the source). -/
def cmd_ls (st : ShellState) (cargs : List String) : ShellState :=
  match cargs with
  | [] => lsShow st st.cwd
  | t :: _ =>
    match resolve_vfs_path st.store st.cwd t with
    | none =>
      print_output st
        ("ls: cannot access \"" ++ t ++ "\": No such file or directory\n")
    | some nid => lsShow st nid

/-- Embeds `ShellGUI.cmd_cd`. -/
def cmd_cd (st : ShellState) (cargs : List String) : ShellState :=
  if cargs.length > 1 then print_output st "cd: too many arguments\n"
  else
    let target := cargs.headD "/"
    match resolve_vfs_path st.store st.cwd target with
    | none =>
      print_output st ("cd: no such file or directory: " ++ target ++ "\n")
    | some nid =>
      match st.store[nid]? with
      | none => st
      | some n =>
        if ¬ n.is_dir then
          print_output st ("cd: not a directory: " ++ target ++ "\n")
        else print_output { st with cwd := nid } ""

/-- Embeds `ShellGUI.cmd_mkdir` (always mode `0o755 = 493`). -/
def cmd_mkdir (st : ShellState) (cargs : List String) : ShellState :=
  match cargs with
  | [path] =>
    match make_vfs_dir st.store st.cwd path 493 with
    | none =>
      print_output st
        ("mkdir: cannot create '" ++ path
          ++ "': parent missing or already exists\n")
    | some (s', nid) =>
      print_output { st with store := s' }
        ("mkdir: created '" ++ path_from_root s' nid ++ "'\n")
  | _ => print_output st "mkdir: usage: mkdir <path>\n"

/-- Embeds `ShellGUI.cmd_chmod`. -/
def cmd_chmod (st : ShellState) (cargs : List String) : ShellState :=
  match cargs with
  | [mode_str, path] =>
    match parse_chmod_mode mode_str with
    | none => print_output st "chmod: invalid mode\n"
    | some mode =>
      match resolve_vfs_path st.store st.cwd path with
      | none =>
        print_output st
          ("chmod: no such file or directory: " ++ path ++ "\n")
      | some nid =>
        match st.store[nid]? with
        | none => st
        | some n =>
          let s' := st.store.set nid { n with mode := mode }
          print_output { st with store := s' }
            ("chmod: changed mode of '" ++ path_from_root s' nid ++ "' to "
              ++ format_mode mode ++ "\n")
  | _ => print_output st "chmod: usage: chmod <mode> <path>\n"

/-- Embeds `ShellGUI.cmd_history`.  Note the source ignores `cargs`. -/
def cmd_history (st : ShellState) (cargs : List String) : ShellState :=
  if st.history = [] then print_output st "No history\n"
  else
    st.history.enum.foldl
      (fun acc (p : Nat × String) =>
        print_output acc (toString (p.1 + 1) ++ "  " ++ p.2 ++ "\n"))
      st

/-- Embeds `ShellGUI.cmd_exit`; the scheduled window destroy is modelled
by the `exiting` flag. -/
def cmd_exit (st : ShellState) (cargs : List String) : ShellState :=
  if cargs ≠ [] then print_output st "exit: unexpected arguments\n"
  else { print_output st "Exiting...\n" with exiting := true }

/-- Embeds `ShellGUI.cmd_date` (the formatted clock is ambient state). -/
def cmd_date (st : ShellState) (cargs : List String) : ShellState :=
  print_output st (st.nowStr ++ "\n")

/-- The body of `cmd_cal` after the year/month are known: month range
check, then one `print_output` per rendered line. -/
def calShow (st : ShellState) (year month : Int) : ShellState :=
  if ¬ (1 ≤ month ∧ month ≤ 12) then print_output st "cal: invalid month\n"
  else
    (st.calText year month).foldl (fun acc line => print_output acc (line ++ "\n")) st

/-- Embeds `ShellGUI.cmd_cal`: argument parsing via `int(·)`; a
`ValueError` lands in the `except` branch. -/
def cmd_cal (st : ShellState) (cargs : List String) : ShellState :=
  match cargs with
  | [] => calShow st st.todayYear st.todayMonth
  | [a] =>
    match pyInt a 10 with
    | none => print_output st "cal: error parsing arguments\n"
    | some m => calShow st st.todayYear m
  | a :: b :: _ =>
    match pyInt a 10, pyInt b 10 with
    | some y, some m => calShow st y m
    | _, _ => print_output st "cal: error parsing arguments\n"

/-- Embeds `ShellGUI.cmd_help`. -/
def cmd_help (st : ShellState) (cargs : List String) : ShellState :=
  ["Supported commands:\n",
   "  ls [path]         - list directory or file (shows mode)\n",
   "  cd [path]         - change directory\n",
   "  mkdir <path>      - create directory in VFS (in-memory)\n",
   "  chmod <mode> <p>  - change mode in VFS (e.g. 755)\n",
   "  history           - show session history\n",
   "  date              - show current date/time\n",
   "  cal [m] [y]       - show calendar\n",
   "  help              - this help\n",
   "  exit              - exit emulator\n"].foldl print_output st

/-- The dispatch chain of `ShellGUI.execute_line`. -/
def dispatch (st : ShellState) (cmd : String) (cargs : List String) :
    ShellState :=
  if cmd = "exit" then cmd_exit st cargs
  else if cmd = "ls" then cmd_ls st cargs
  else if cmd = "cd" then cmd_cd st cargs
  else if cmd = "mkdir" then cmd_mkdir st cargs
  else if cmd = "chmod" then cmd_chmod st cargs
  else if cmd = "history" then cmd_history st cargs
  else if cmd = "date" then cmd_date st cargs
  else if cmd = "cal" then cmd_cal st cargs
  else if cmd = "help" then cmd_help st cargs
  else print_output st ("Unknown command: " ++ cmd ++ "\n")

/-- Embeds `ShellGUI.execute_line`. -/
def execute_line (st : ShellState) (line : String) : ShellState :=
  let expanded := expand_vars st.env line
  match shlex_split expanded with
  | .error e => print_output st ("parse error: " ++ e ++ "\n")
  | .ok [] => st
  | .ok (cmd :: cargs) => dispatch st cmd cargs

/-- Python `not line.strip()`: the line is blank. -/
def isBlankLine (line : String) : Bool :=
  line.data.all isPySpace

/-- Python `raw.rstrip("\n")`. -/
def rstripNL (raw : String) : String :=
  String.mk (raw.data.reverse.dropWhile (· = '\n')).reverse

/-- Embeds `ShellGUI.on_enter` for one submitted line (the entry widget
reset is presentation; the `except` report cannot fire since the
embedded `execute_line` is total). -/
def on_enter (st : ShellState) (line : String) : ShellState :=
  if isBlankLine line then print_output st (prompt_text st ++ "\n")
  else
    let st1 := print_output st (prompt_text st ++ line ++ "\n")
    let st2 := { st1 with history := st1.history ++ [line] }
    execute_line st2 line

/-- A whole interactive session: fold `on_enter` over submitted lines. -/
def submitAll (st : ShellState) (lines : List String) : ShellState :=
  lines.foldl on_enter st

/-- The per-line body of `ShellGUI.run_script`, given the script's lines
(file reading is ambient; each element is one line of the file). -/
def scriptStep (acc : ShellState) (raw : String) : ShellState :=
  let cmd_line := rstripNL raw
  if isBlankLine cmd_line then acc
  else
    let acc1 := print_output acc (prompt_text acc ++ cmd_line ++ "\n")
    let acc2 := { acc1 with history := acc1.history ++ [cmd_line] }
    execute_line acc2 cmd_line

/-- Embeds the loop of `ShellGUI.run_script` (header line and missing-
file check are ambient I/O). -/
def run_script_lines (st : ShellState) (lines : List String) : ShellState :=
  lines.foldl scriptStep st

/-! ### Demonstration stores (concrete object graphs the program could
have built from disk: a root with `docs/readme.txt` and `motd`) -/

/-- Concrete arena: `/` (id 0) containing directory `docs` (id 1) and
file `motd` (id 2); `docs` contains file `readme.txt` (id 3). -/
def demoStore : Store :=
  [⟨"/", true, [("docs", 1), ("motd", 2)], "", 493, none⟩,
   ⟨"docs", true, [("readme.txt", 3)], "", 493, some 0⟩,
   ⟨"motd", false, [], "hello\n", 420, some 0⟩,
   ⟨"readme.txt", false, [], "readme", 420, some 1⟩]

/-- Concrete arena for the backslash claim: `/` → `a` (id 1, dir) → `b`
(id 2, dir); note root has no child named `b`. -/
def bsStore : Store :=
  [⟨"/", true, [("a", 1)], "", 493, none⟩,
   ⟨"a", true, [("b", 2)], "", 493, some 0⟩,
   ⟨"b", true, [], "", 493, some 1⟩]

/-- A session state over `demoStore` with empty history and a trivial
ambient environment. -/
def demoSt : ShellState :=
  { store := demoStore, cwd := 0, history := [], output := [], env := [],
    nowStr := "2026-10-12 00:00:00", todayYear := 2026, todayMonth := 10,
    calText := fun _ _ => [], exiting := false }

/-! ### Basic lemmas: dictionaries, well-formedness, climbing -/

theorem dictLookup_insert_self (d : List (String × Nat)) (k : String)
    (v : Nat) : dictLookup (dictInsert d k v) k = some v := by
  induction d with
  | nil => simp [dictInsert, dictLookup]
  | cons hd tl ih =>
    by_cases h : hd.1 = k
    · simp [dictInsert, h, dictLookup]
    · simp [dictInsert, h, dictLookup, ih]

theorem dictLookup_insert_ne (d : List (String × Nat)) (k k' : String)
    (v : Nat) (h : k' ≠ k) :
    dictLookup (dictInsert d k v) k' = dictLookup d k' := by
  induction d with
  | nil => simp [dictInsert, dictLookup, Ne.symm h]
  | cons hd tl ih =>
    obtain ⟨a, b⟩ := hd
    by_cases hk : a = k
    · subst hk
      simp [dictInsert, dictLookup, Ne.symm h]
    · simp [dictInsert, hk, dictLookup, ih]

theorem dictLookup_mem {d : List (String × Nat)} {k : String} {v : Nat}
    (h : dictLookup d k = some v) : (k, v) ∈ d := by
  induction d with
  | nil => simp [dictLookup] at h
  | cons hd tl ih =>
    obtain ⟨a, b⟩ := hd
    by_cases hk : a = k
    · subst hk
      simp [dictLookup] at h
      subst h
      exact List.mem_cons_self _ _
    · simp [dictLookup, hk] at h
      exact List.mem_cons_of_mem _ (ih h)

theorem wf_parent_lt {s : Store} (hwf : wf s) {i p : Nat}
    (h : parentOf s i = some p) : p < i := by
  unfold parentOf at h
  cases hg : s[i]? with
  | none => simp [hg] at h
  | some n =>
    simp [hg] at h
    have hi : i < s.length := by
      by_contra hge
      simp [List.getElem?_eq_none (Nat.le_of_not_lt hge)] at hg
    have := hwf.2 i hi
    have hget : s.get ⟨i, hi⟩ = n := by
      have := List.getElem?_eq_getElem hi
      simp [List.get_eq_getElem]
      rw [this] at hg
      exact Option.some.inj hg
    rw [hget] at this
    unfold nodeWfB at this
    rw [h] at this
    simp at this
    exact this.1

theorem wf_parent_none {s : Store} (hwf : wf s) {i : Nat} {n : VNode}
    (hg : s[i]? = some n) (h : n.parent = none) : i = 0 := by
  have hi : i < s.length := by
    by_contra hge
    simp [List.getElem?_eq_none (Nat.le_of_not_lt hge)] at hg
  have hw := hwf.2 i hi
  have hget : s.get ⟨i, hi⟩ = n := by
    have := List.getElem?_eq_getElem hi
    simp [List.get_eq_getElem]
    rw [this] at hg
    exact Option.some.inj hg
  rw [hget] at hw
  unfold nodeWfB at hw
  rw [h] at hw
  simp at hw
  exact hw.1

theorem wf_child_lt {s : Store} (hwf : wf s) {i c : Nat} {n : VNode}
    {nm : String} (hg : s[i]? = some n)
    (h : dictLookup n.children nm = some c) : c < s.length := by
  have hi : i < s.length := by
    by_contra hge
    simp [List.getElem?_eq_none (Nat.le_of_not_lt hge)] at hg
  have hw := hwf.2 i hi
  have hget : s.get ⟨i, hi⟩ = n := by
    have := List.getElem?_eq_getElem hi
    simp [List.get_eq_getElem]
    rw [this] at hg
    exact Option.some.inj hg
  rw [hget] at hw
  unfold nodeWfB at hw
  simp [List.all_eq_true] at hw
  exact hw.2 nm c (dictLookup_mem h)

/-- Extra climbing fuel beyond `v + 1` is irrelevant on a parent chain
that descends in the id order. -/
theorem climb_stable {s : Store}
    (hpl : ∀ i p, parentOf s i = some p → p < i) :
    ∀ v f, v + 1 ≤ f → climb s f v = climb s (v + 1) v := by
  intro v
  induction v using Nat.strong_induction_on with
  | _ v ih =>
    intro f hf
    match f, hf with
    | f' + 1, _ =>
      cases hp : parentOf s v with
      | none => simp [climb, hp]
      | some p =>
        have hpv : p < v := hpl v p hp
        simp only [climb, hp]
        have h1 : climb s f' p = climb s (p + 1) p :=
          ih p hpv f' (by omega)
        have h2 : climb s v p = climb s (p + 1) p :=
          ih p hpv v (by omega)
        rw [h1, h2]

/-- On a well-formed arena the parent walk from any node in range ends
at the root, node 0. -/
theorem climb_root {s : Store} (hwf : wf s) :
    ∀ v, v < s.length → climb s (v + 1) v = 0 := by
  intro v
  induction v using Nat.strong_induction_on with
  | _ v ih =>
    intro hv
    cases hp : parentOf s v with
    | none =>
      simp [climb, hp]
      cases hg : s[v]? with
      | none => simp [List.getElem?_eq_getElem hv] at hg
      | some n =>
        unfold parentOf at hp
        rw [hg] at hp
        simp at hp
        exact wf_parent_none hwf hg hp
    | some p =>
      have hpv : p < v := wf_parent_lt hwf hp
      simp only [climb, hp]
      rw [climb_stable (fun i q h => wf_parent_lt hwf h) p v (by omega)]
      exact ih p hpv (by omega)

/-- The full parent walk of `resolve_vfs_path` (fuel `s.length`) lands
at the root for every in-range start node. -/
theorem climb_full {s : Store} (hwf : wf s) {v : Nat} (hv : v < s.length) :
    climb s s.length v = 0 := by
  rw [climb_stable (fun i q h => wf_parent_lt hwf h) v s.length (by omega)]
  exact climb_root hwf v hv

/-- The threaded walk returns the arena it was given, unchanged. -/
theorem resolveLoopS_eq (s : Store) :
    ∀ (parts : List String) (node : Nat),
      resolveLoopS s node parts = (s, resolveLoop s node parts) := by
  intro parts
  induction parts with
  | nil => intro node; rfl
  | cons part rest ih =>
    intro node
    by_cases h1 : part = "."
    · simp [resolveLoopS, resolveLoop, h1, ih]
    · by_cases h2 : part = ".."
      · cases hp : parentOf s node with
        | none => simp [resolveLoopS, resolveLoop, h1, h2, hp, ih]
        | some p => simp [resolveLoopS, resolveLoop, h1, h2, hp, ih]
      · cases hg : s[node]? with
        | none => simp [resolveLoopS, resolveLoop, h1, h2, hg]
        | some n =>
          by_cases hd : n.is_dir
          · cases hc : dictLookup n.children part with
            | none => simp [resolveLoopS, resolveLoop, h1, h2, hg, hd, hc]
            | some cid => simp [resolveLoopS, resolveLoop, h1, h2, hg, hd, hc, ih]
          · simp [resolveLoopS, resolveLoop, h1, h2, hg, hd]

/-- C9: Path resolution is pure.  The store-threaded embedding of
`resolve_vfs_path` hands back the very arena it was given — every node
(name, kind, children, content, mode, parent) is unchanged — and its
single result agrees with the pure lookup. -/
theorem resolve_is_pure (s : Store) (cwd : Nat) (path : String) :
    (resolve_vfs_pathS s cwd path).1 = s ∧
    (∀ i : Nat, ((resolve_vfs_pathS s cwd path).1)[i]? = s[i]?) ∧
    (resolve_vfs_pathS s cwd path).2 = resolve_vfs_path s cwd path := by
  refine ⟨?_, ?_, ?_⟩
  · simp only [resolve_vfs_pathS]
    rw [resolveLoopS_eq]
  · intro i
    simp only [resolve_vfs_pathS]
    rw [resolveLoopS_eq]
  · simp only [resolve_vfs_pathS, resolve_vfs_path]
    rw [resolveLoopS_eq]

/-- C6: during resolution the segment `..` moves the walk to the current
node's parent, and at a parentless node (the root) it is a no-op; a path
of only `.`/`..` segments always resolves (never an error, never above
the root). -/
theorem dotdot_semantics (s : Store) (node : Nat) (rest : List String) :
    (parentOf s node = none →
      resolveLoop s node (".." :: rest) = resolveLoop s node rest) ∧
    (∀ p, parentOf s node = some p →
      resolveLoop s node (".." :: rest) = resolveLoop s p rest) ∧
    (∀ parts : List String, (∀ x ∈ parts, x = "." ∨ x = "..") →
      ∃ r, resolveLoop s node parts = some r) := by
  refine ⟨?_, ?_, ?_⟩
  · intro h
    simp [resolveLoop, h]
  · intro p h
    simp [resolveLoop, h]
  · intro parts
    induction parts generalizing node with
    | nil => exact fun _ => ⟨node, rfl⟩
    | cons x xs ih =>
      intro hx
      rcases hx x (List.mem_cons_self _ _) with h1 | h2
      · rw [h1]
        simp only [resolveLoop, if_pos rfl]
        exact ih node (fun y hy => hx y (List.mem_cons_of_mem _ hy))
      · rw [h2]
        cases hp : parentOf s node with
        | none =>
          simp only [resolveLoop, hp]
          exact ih node (fun y hy => hx y (List.mem_cons_of_mem _ hy))
        | some p =>
          simp only [resolveLoop, hp]
          exact ih p (fun y hy => hx y (List.mem_cons_of_mem _ hy))

/-- C6 witness: both `..` behaviours at concrete nodes of `demoStore`
(1 = `/docs` has parent 0; 0 = root is parentless), and an all-dots path
resolving. -/
theorem dotdot_semantics_witness :
    (resolveLoop demoStore 0 [".."] = resolveLoop demoStore 0 [] ∧
     resolveLoop demoStore 1 [".."] = resolveLoop demoStore 0 []) ∧
    (∃ r, resolveLoop demoStore 1 ["..", ".", ".."] = some r) :=
  ⟨⟨(dotdot_semantics demoStore 0 []).1 (by decide),
    (dotdot_semantics demoStore 1 []).2.1 0 (by decide)⟩,
   (dotdot_semantics demoStore 1 []).2.2 ["..", ".", ".."] (by decide)⟩

/-- C7: a segment other than `.`/`..` looked up at a File node, or
naming a missing child, fails the rest of the resolution outright (the
loop returns `none`, so the whole call fails; no partial match). -/
theorem segment_lookup_failure (s : Store) (node : Nat) (part : String)
    (rest : List String) (n : VNode)
    (h1 : part ≠ ".") (h2 : part ≠ "..") (hg : s[node]? = some n) :
    (n.is_dir = false → resolveLoop s node (part :: rest) = none) ∧
    (dictLookup n.children part = none →
      resolveLoop s node (part :: rest) = none) := by
  constructor
  · intro hf
    simp [resolveLoop, h1, h2, hg, hf]
  · intro hc
    by_cases hd : n.is_dir
    · simp [resolveLoop, h1, h2, hg, hd, hc]
    · simp [resolveLoop, h1, h2, hg, hd]

/-- C7 witness: in `demoStore`, looking up a segment at the File node
`motd` (id 2) fails, and a missing child of the root fails. -/
theorem segment_lookup_failure_witness :
    resolveLoop demoStore 2 ["x"] = none ∧
    resolveLoop demoStore 0 ["nosuch", "y"] = none :=
  ⟨(segment_lookup_failure demoStore 2 "x" [] ⟨"motd", false, [], "hello\n", 420, some 0⟩
      (by decide) (by decide) (by decide)).1 (by decide),
   (segment_lookup_failure demoStore 0 "nosuch" ["y"]
      ⟨"/", true, [("docs", 1), ("motd", 2)], "", 493, none⟩
      (by decide) (by decide) (by decide)).2 (by decide)⟩

/-- C1 counterexample: from the non-root node `/docs` (id 1, whose
parent is the root), resolving the empty path returns `/docs` itself,
not the tree root — refuting "resolving the empty path returns the
tree's root node for every starting node". -/
theorem resolve_empty_counterexample :
    resolve_vfs_path demoStore 1 "" = some 1 ∧
    parentOf demoStore 1 = some 0 ∧ (1 : Nat) ≠ 0 := by
  refine ⟨by decide, by decide, by decide⟩

/-- C1 (amended): on a well-formed arena, a bare separator resolves to
the root (node 0, the unique parentless node) from every starting node
— so its result is independent of `cwd` — while the empty path resolves
to the starting node itself. -/
theorem resolve_root_amended (s : Store) (cwd : Nat) (hwf : wf s)
    (hcwd : cwd < s.length) :
    resolve_vfs_path s cwd "/" = some 0 ∧
    resolve_vfs_path s cwd "" = some cwd ∧
    parentOf s 0 = none := by
  refine ⟨?_, ?_, ?_⟩
  · unfold resolve_vfs_path
    have hsw : startsWithSlash "/" = true := by decide
    have hsp : _split_vfs_path "/" = [] := by decide
    rw [hsw, hsp]
    simp [resolveLoop, climb_full hwf hcwd]
  · unfold resolve_vfs_path
    have hsw : startsWithSlash "" = false := by decide
    have hsp : _split_vfs_path "" = [] := by decide
    rw [hsw, hsp]
    simp [resolveLoop]
  · cases hg : s[0]? with
    | none => simp [List.getElem?_eq_getElem hwf.1] at hg
    | some n =>
      cases hp : n.parent with
      | none =>
        unfold parentOf
        simp [hg, hp]
      | some p =>
        have hpp : parentOf s 0 = some p := by
          unfold parentOf
          simp [hg, hp]
        have : p < 0 := wf_parent_lt hwf hpp
        omega

/-- C1 witness: the amended statement evaluated on `demoStore` from the
non-root node `/docs`. -/
theorem resolve_root_amended_witness :
    resolve_vfs_path demoStore 1 "/" = some 0 ∧
    resolve_vfs_path demoStore 1 "" = some 1 ∧
    parentOf demoStore 0 = none :=
  resolve_root_amended demoStore 1 (by decide) (by decide)

/-- An element's presence bounds the index (`getElem?`). -/
theorem getElem?_some_lt {s : Store} {i : Nat} {n : VNode}
    (h : s[i]? = some n) : i < s.length := by
  by_contra hge
  simp [List.getElem?_eq_none (Nat.le_of_not_lt hge)] at h

/-- C5: `chmod "755" p` parses the mode in base 8 and, whenever `p`
resolves, stores exactly `0o755 = 493` on the resolved node, whatever
its prior mode, and reports the change. -/
theorem chmod_755_sets_mode (st : ShellState) (path : String) (nid : Nat)
    (n : VNode) (hres : resolve_vfs_path st.store st.cwd path = some nid)
    (hget : st.store[nid]? = some n) :
    (cmd_chmod st ["755", path]).store[nid]? = some { n with mode := 493 } ∧
    (cmd_chmod st ["755", path]).output = st.output ++
      ["chmod: changed mode of '"
        ++ path_from_root (st.store.set nid { n with mode := 493 }) nid
        ++ "' to " ++ format_mode 493 ++ "\n"] := by
  have hp : parse_chmod_mode "755" = some 493 := by decide
  have hlt : nid < st.store.length := getElem?_some_lt hget
  simp only [cmd_chmod, hp, hres, hget, print_output]
  exact ⟨List.getElem?_set_eq_of_lt _ hlt, by simp⟩

/-- C5 witness: chmod 755 on `/motd` of the demo session (prior mode
0644) leaves mode 493 = 0o755. -/
theorem chmod_755_sets_mode_witness :
    (cmd_chmod demoSt ["755", "/motd"]).store[2]? =
      some { name := "motd", is_dir := false, children := [],
             content := "hello\n", mode := 493, parent := some 0 } :=
  (chmod_755_sets_mode demoSt "/motd" 2
    ⟨"motd", false, [], "hello\n", 420, some 0⟩ (by decide) (by decide)).1

/-- C2 counterexample: `chmod 999 /motd` does NOT fail — `"999"` is not
all-octal so it parses base 10, there is no range check, and the node's
mode becomes 999 with a success message (refuting "chmod fails for any
out-of-range mode, in particular 999"). -/
theorem chmod_999_counterexample :
    ((cmd_chmod demoSt ["999", "/motd"]).store[2]?).map VNode.mode =
      some 999 ∧
    (cmd_chmod demoSt ["999", "/motd"]).output =
      ["chmod: changed mode of '/motd' to 747 (rwxr--rwx)\n"] := by
  constructor
  · rfl
  · rfl

/-- C2 (amended): a malformed mode string (one `int()` rejects) fails
with the invalid-mode error and changes no node; the stated radix rule
(leading `0` or all digits 0–7 → base 8, otherwise base 10) holds; but
there is no 9-bit range check — any parseable value, such as 999, is
accepted and stored verbatim. -/
theorem chmod_mode_amended :
    (∀ (st : ShellState) (ms path : String), parse_chmod_mode ms = none →
      cmd_chmod st [ms, path] = print_output st "chmod: invalid mode\n" ∧
      (cmd_chmod st [ms, path]).store = st.store) ∧
    (∀ (st : ShellState) (path : String) (nid : Nat) (n : VNode),
      resolve_vfs_path st.store st.cwd path = some nid →
      st.store[nid]? = some n →
      (cmd_chmod st ["999", path]).store =
        st.store.set nid { n with mode := 999 }) ∧
    (parse_chmod_mode "0755" = some 493 ∧ parse_chmod_mode "755" = some 493 ∧
     parse_chmod_mode "777" = some 511 ∧ parse_chmod_mode "999" = some 999 ∧
     parse_chmod_mode "98x" = none ∧ parse_chmod_mode "" = none) := by
  refine ⟨?_, ?_, by decide⟩
  · intro st ms path hms
    have he : cmd_chmod st [ms, path] = print_output st "chmod: invalid mode\n" := by
      simp only [cmd_chmod, hms]
    exact ⟨he, by rw [he]; rfl⟩
  · intro st path nid n hres hget
    have hp : parse_chmod_mode "999" = some 999 := by decide
    simp only [cmd_chmod, hp, hres, hget, print_output]

/-- C2 witness: the amended statement at concrete inputs — mode `"9z"`
is malformed and leaves the demo store untouched; `chmod 999 /motd`
stores 999. -/
theorem chmod_mode_amended_witness :
    (cmd_chmod demoSt ["9z", "/motd"]).store = demoSt.store ∧
    (cmd_chmod demoSt ["999", "/motd"]).store =
      demoSt.store.set 2
        { name := "motd", is_dir := false, children := [],
          content := "hello\n", mode := 999, parent := some 0 } :=
  ⟨(chmod_mode_amended.1 demoSt "9z" "/motd" (by decide)).2,
   chmod_mode_amended.2.1 demoSt "/motd" 2
     ⟨"motd", false, [], "hello\n", 420, some 0⟩ (by decide) (by decide)⟩

/-- Folding `print_output` over a list appends one rendered line per
element. -/
theorem foldl_print_output_map {α : Type} (g : α → String) :
    ∀ (xs : List α) (st : ShellState),
      (xs.foldl (fun acc x => print_output acc (g x)) st).output =
        st.output ++ xs.map g := by
  intro xs
  induction xs with
  | nil => intro st; simp
  | cons x xs ih =>
    intro st
    simp only [List.foldl_cons, List.map_cons]
    rw [ih]
    simp [print_output]

/-- C8 counterexample: submitting `history extra` (a `history` command
with an argument) prints the history listing, not an unexpected-
arguments error — refuting the claimed argument check. -/
theorem history_args_counterexample :
    (on_enter demoSt "history extra").output =
      ["vfs:/> history extra\n", "1  history extra\n"] ∧
    (on_enter demoSt "history extra").history = ["history extra"] := by
  constructor
  · rfl
  · rfl

/-- C8 (amended): `cmd_history` ignores its arguments entirely — with
any argument list it behaves exactly as with none, printing the
1-indexed entries (never an error) when history is nonempty. -/
theorem history_ignores_args (st : ShellState) (cargs : List String) :
    cmd_history st cargs = cmd_history st [] ∧
    (st.history ≠ [] → (cmd_history st cargs).output = st.output ++
      st.history.enum.map (fun p => toString (p.1 + 1) ++ "  " ++ p.2 ++ "\n")) := by
  constructor
  · rfl
  · intro hne
    unfold cmd_history
    rw [if_neg hne]
    exact foldl_print_output_map _ st.history.enum st

/-- C8 witness: a session whose history is `["ls"]`, invoked with an
unexpected argument, still lists the single entry. -/
theorem history_ignores_args_witness :
    cmd_history { demoSt with history := ["ls"] } ["unexpected"] =
      cmd_history { demoSt with history := ["ls"] } [] ∧
    (cmd_history { demoSt with history := ["ls"] } ["unexpected"]).output =
      ["1  ls\n"] :=
  ⟨(history_ignores_args { demoSt with history := ["ls"] } ["unexpected"]).1,
   ((history_ignores_args { demoSt with history := ["ls"] } ["unexpected"]).2
      (by decide)).trans (by decide)⟩

/-- Replacing backslashes by slashes is idempotent. -/
theorem pyReplaceBS_idem (p : String) :
    pyReplaceBS (pyReplaceBS p) = pyReplaceBS p := by
  have hmap : ∀ l : List Char,
      ((l.map fun c => if c = '\\' then '/' else c).map
        fun c => if c = '\\' then '/' else c) =
        l.map fun c => if c = '\\' then '/' else c := by
    intro l
    induction l with
    | nil => rfl
    | cons c cs ih =>
      by_cases hc : c = '\\' <;> simp [hc, ih]
  exact congrArg String.mk (hmap p.data)

/-- C10 counterexample: from `/a` (id 1) in `bsStore`, the path `\b`
resolves relative to `/a` (finding `/a/b`), while its slash-normalised
form `/b` is absolute and fails — so resolution is NOT invariant under
replacing `\` by `/`. -/
theorem backslash_counterexample :
    resolve_vfs_path bsStore 1 "\\b" = some 2 ∧
    pyReplaceBS "\\b" = "/b" ∧
    resolve_vfs_path bsStore 1 "/b" = none := by
  refine ⟨by decide, by decide, by decide⟩

/-- C10 (amended): backslashes do act as separators in path splitting,
but absoluteness tests only a leading `/`; hence resolution and mkdir
are invariant under replacing `\` by `/` exactly for paths that do not
begin with a backslash (e.g. `cd a\b` ≡ `cd a/b`). -/
theorem backslash_separator_amended (s : Store) (cwd : Nat) (path : String)
    (mode : Int) (h : path.data.head? ≠ some '\\') :
    resolve_vfs_path s cwd path = resolve_vfs_path s cwd (pyReplaceBS path) ∧
    make_vfs_dir s cwd path mode =
      make_vfs_dir s cwd (pyReplaceBS path) mode := by
  have h1 : _split_vfs_path (pyReplaceBS path) = _split_vfs_path path := by
    unfold _split_vfs_path
    rw [pyReplaceBS_idem]
  have h2 : startsWithSlash (pyReplaceBS path) = startsWithSlash path := by
    unfold startsWithSlash pyReplaceBS
    cases hd : path.data with
    | nil => simp
    | cons c rest =>
      have hc : c ≠ '\\' := by
        intro e
        apply h
        rw [hd, e]
        rfl
      simp [hc]
  have h3 : ∀ pp, mkdirParent s cwd (pyReplaceBS path) pp =
      mkdirParent s cwd path pp := by
    intro pp
    unfold mkdirParent
    rw [h2]
  constructor
  · unfold resolve_vfs_path
    rw [h1, h2]
  · unfold make_vfs_dir
    rw [h1]
    simp only [h3]

/-- C10 witness: the amended equivalence at the concrete path `a\b`
from the root of `bsStore`. -/
theorem backslash_separator_amended_witness :
    resolve_vfs_path bsStore 0 "a\\b" =
      resolve_vfs_path bsStore 0 (pyReplaceBS "a\\b") ∧
    make_vfs_dir bsStore 0 "a\\b" 493 =
      make_vfs_dir bsStore 0 (pyReplaceBS "a\\b") 493 :=
  backslash_separator_amended bsStore 0 "a\\b" 493 (by decide)

/-! ### The arena extension performed by a successful mkdir -/

/-- The node a successful `make_vfs_dir` creates. -/
def extNode (name : String) (mode : Int) (pid : Nat) : VNode :=
  ⟨name, true, [], "", mode, some pid⟩

/-- The arena after a successful `make_vfs_dir`: parent `pid` gains the
child entry, and the new node is appended at id `s.length`. -/
def extStore (s : Store) (pid : Nat) (pn : VNode) (name : String)
    (mode : Int) : Store :=
  (s.set pid { pn with children := dictInsert pn.children name s.length })
    ++ [extNode name mode pid]

theorem extStore_length (s : Store) (pid : Nat) (pn : VNode) (name : String)
    (mode : Int) : (extStore s pid pn name mode).length = s.length + 1 := by
  simp [extStore]

theorem extStore_get_old (s : Store) (pid : Nat) (pn : VNode) (name : String)
    (mode : Int) {v : Nat} (hv : v < s.length) (hvp : v ≠ pid) :
    (extStore s pid pn name mode)[v]? = s[v]? := by
  unfold extStore
  rw [List.getElem?_append]
  simp only [List.length_set, hv, if_pos]
  exact List.getElem?_set_ne (fun e => hvp e.symm)

theorem extStore_get_pid (s : Store) (pid : Nat) (pn : VNode) (name : String)
    (mode : Int) (hpid : pid < s.length) :
    (extStore s pid pn name mode)[pid]? =
      some { pn with children := dictInsert pn.children name s.length } := by
  unfold extStore
  rw [List.getElem?_append]
  simp only [List.length_set, hpid, if_pos]
  exact List.getElem?_set_eq_of_lt _ hpid

theorem extStore_parentOf (s : Store) (pid : Nat) (pn : VNode)
    (name : String) (mode : Int) (hpn : s[pid]? = some pn) {v : Nat}
    (hv : v < s.length) :
    parentOf (extStore s pid pn name mode) v = parentOf s v := by
  by_cases hvp : v = pid
  · subst hvp
    unfold parentOf
    rw [extStore_get_pid s v pn name mode hv, hpn]
    rfl
  · unfold parentOf
    rw [extStore_get_old s pid pn name mode hv hvp]

theorem extStore_climb (s : Store) (pid : Nat) (pn : VNode) (name : String)
    (mode : Int) (hwf : wf s) (hpn : s[pid]? = some pn) :
    ∀ (f v : Nat), v < s.length →
      climb (extStore s pid pn name mode) f v = climb s f v := by
  intro f
  induction f with
  | zero => intro v hv; rfl
  | succ f ih =>
    intro v hv
    simp only [climb, extStore_parentOf s pid pn name mode hpn hv]
    cases hp : parentOf s v with
    | none => rfl
    | some p =>
      have hpv : p < v := wf_parent_lt hwf hp
      exact ih p (by omega)

/-- Frame lemma for the resolution walk: a successful walk in `s`
ending at `pid` takes exactly the same steps in the extended arena,
provided the new child's name was absent from `pid`'s children (which
the mkdir guard ensures): the walk can therefore never enter the new
node. -/
theorem resolveLoop_ext (s : Store) (pid : Nat) (pn : VNode) (name : String)
    (mode : Int) (hwf : wf s) (hpn : s[pid]? = some pn)
    (hmem : dictMem pn.children name = false) :
    ∀ (parts : List String) (v : Nat), v < s.length →
      resolveLoop s v parts = some pid →
      resolveLoop (extStore s pid pn name mode) v parts = some pid := by
  intro parts
  induction parts with
  | nil =>
    intro v hv hres
    simp only [resolveLoop] at hres ⊢
    exact hres
  | cons seg rest ih =>
    intro v hv hres
    by_cases h1 : seg = "."
    · simp only [resolveLoop, h1, if_pos] at hres ⊢
      exact ih v hv hres
    · by_cases h2 : seg = ".."
      · subst h2
        simp only [resolveLoop, h1, if_false, if_pos,
          extStore_parentOf s pid pn name mode hpn hv] at hres ⊢
        cases hp : parentOf s v with
        | none =>
          rw [hp] at hres
          exact ih v hv hres
        | some p =>
          rw [hp] at hres
          have hpv : p < v := wf_parent_lt hwf hp
          exact ih p (by omega) hres
      · cases hg : s[v]? with
        | none => simp [resolveLoop, h1, h2, hg] at hres
        | some n =>
          by_cases hd : n.is_dir
          · cases hc : dictLookup n.children seg with
            | none => simp [resolveLoop, h1, h2, hg, hd, hc] at hres
            | some c =>
              have hcl : c < s.length := wf_child_lt hwf hg hc
              have hres' : resolveLoop s c rest = some pid := by
                simpa [resolveLoop, h1, h2, hg, hd, hc] using hres
              by_cases hvp : v = pid
              · subst hvp
                have hn : n = pn := by
                  rw [hpn] at hg
                  exact (Option.some.inj hg).symm
                subst hn
                have hne : seg ≠ name := by
                  intro e
                  rw [e] at hc
                  unfold dictMem at hmem
                  rw [hc] at hmem
                  simp at hmem
                simp only [resolveLoop, h1, h2, if_false,
                  extStore_get_pid s v n name mode hv, hd, if_pos,
                  dictLookup_insert_ne _ _ _ _ hne, hc]
                exact ih c hcl hres'
              · simp only [resolveLoop, h1, h2, if_false,
                  extStore_get_old s pid pn name mode hv hvp, hg, hd, if_pos, hc]
                exact ih c hcl hres'
          · simp [resolveLoop, h1, h2, hg, hd] at hres

/-- Frame lemma for whole-path resolution under the mkdir extension. -/
theorem resolve_ext (s : Store) (pid : Nat) (pn : VNode) (name : String)
    (mode : Int) (hwf : wf s) (hpn : s[pid]? = some pn)
    (hmem : dictMem pn.children name = false) (cwd : Nat)
    (hcwd : cwd < s.length) (q : String)
    (hres : resolve_vfs_path s cwd q = some pid) :
    resolve_vfs_path (extStore s pid pn name mode) cwd q = some pid := by
  have hpl : ∀ i p, parentOf s i = some p → p < i :=
    fun i p h => wf_parent_lt hwf h
  unfold resolve_vfs_path at hres ⊢
  cases hsw : startsWithSlash q with
  | false =>
    simp only [hsw, Bool.false_eq_true, if_false] at hres ⊢
    exact resolveLoop_ext s pid pn name mode hwf hpn hmem _ cwd hcwd hres
  | true =>
    simp only [hsw, eq_self_iff_true, if_true] at hres ⊢
    have hlen : (extStore s pid pn name mode).length = s.length + 1 :=
      extStore_length s pid pn name mode
    have hc1 : climb (extStore s pid pn name mode)
        (extStore s pid pn name mode).length cwd = climb s s.length cwd := by
      rw [hlen, extStore_climb s pid pn name mode hwf hpn (s.length + 1) cwd hcwd,
        climb_stable hpl cwd (s.length + 1) (by omega),
        climb_stable hpl cwd s.length (by omega)]
    rw [hc1]
    have hroot : climb s s.length cwd = 0 := climb_full hwf hcwd
    rw [hroot] at hres ⊢
    exact resolveLoop_ext s pid pn name mode hwf hpn hmem _ 0 hwf.1 hres

/-- Frame lemma for the parent computation of mkdir under the
extension. -/
theorem mkdirParent_ext (s : Store) (pid : Nat) (pn : VNode) (name : String)
    (mode : Int) (hwf : wf s) (hpn : s[pid]? = some pn)
    (hmem : dictMem pn.children name = false) (cwd : Nat)
    (hcwd : cwd < s.length) (path : String) (pp : List String)
    (h : mkdirParent s cwd path pp = some pid) :
    mkdirParent (extStore s pid pn name mode) cwd path pp = some pid := by
  unfold mkdirParent at h ⊢
  split at h
  · next hne =>
      rw [if_pos hne]
      exact resolve_ext s pid pn name mode hwf hpn hmem cwd hcwd _ h
  · next hne =>
      rw [if_neg hne]
      split at h
      · next hsw =>
          rw [if_pos hsw]
          exact resolve_ext s pid pn name mode hwf hpn hmem cwd hcwd _ h
      · next hsw =>
          rw [if_neg hsw]
          exact h

/-- A successful mkdir cannot be repeated: the name the first call
added is found by the second call's membership guard, and the parent
resolution is unaffected by the extension. -/
theorem make_vfs_dir_twice (s : Store) (cwd : Nat) (path : String)
    (mode mode' : Int) (hwf : wf s) (hcwd : cwd < s.length)
    (s' : Store) (nid : Nat)
    (h : make_vfs_dir s cwd path mode = some (s', nid)) :
    make_vfs_dir s' cwd path mode' = none := by
  unfold make_vfs_dir at h
  cases hlast : (_split_vfs_path path).getLast? with
  | none => simp [hlast] at h
  | some name =>
    simp only [hlast] at h
    cases hmp : mkdirParent s cwd path (_split_vfs_path path).dropLast with
    | none => simp [hmp] at h
    | some pid =>
      simp only [hmp] at h
      cases hpn : s[pid]? with
      | none => simp [hpn] at h
      | some pn =>
        simp only [hpn] at h
        by_cases hdir : pn.is_dir
        · by_cases hmem : dictMem pn.children name
          · simp [hdir, hmem] at h
          · simp only [hdir, hmem, if_true, if_false, eq_self_iff_true,
              Bool.false_eq_true, Option.some.injEq, Prod.mk.injEq] at h
            have hs' : s' = extStore s pid pn name mode := by
              rw [← h.1]
              unfold extStore extNode
              rw [hdir]
            have hmemb : dictMem pn.children name = false := by
              simpa using hmem
            have hpid : pid < s.length := getElem?_some_lt hpn
            subst hs'
            have hfound : dictMem
                (dictInsert pn.children name s.length) name = true := by
              unfold dictMem
              rw [dictLookup_insert_self]
              rfl
            unfold make_vfs_dir
            simp only [hlast,
              mkdirParent_ext s pid pn name mode hwf hpn hmemb cwd hcwd
                path _ hmp,
              extStore_get_pid s pid pn name mode hpid]
            simp [hdir, hfound]
        · simp [hdir] at h

/-- The new node of a successful mkdir sits at the fresh id `s.length`. -/
theorem extStore_get_new (s : Store) (pid : Nat) (pn : VNode)
    (name : String) (mode : Int) :
    (extStore s pid pn name mode)[s.length]? = some (extNode name mode pid) := by
  simp [extStore, List.getElem?_append]

/-- C3: `mkdir` fails when the path has no final segment, when the
parent does not resolve or is not a Directory, or when a child of that
name already exists; it never creates intermediate directories and never
overwrites.  On success it appends exactly one new empty Directory node
(carrying the mode passed by `cmd_mkdir`, 0o755 = 493) under the
resolved parent, leaving every other node unchanged.  Hence on a
well-formed tree the same mkdir succeeds once and fails the second
time. -/
theorem mkdir_spec (s : Store) (cwd : Nat) (path : String) (mode : Int) :
    (_split_vfs_path path = [] → make_vfs_dir s cwd path mode = none) ∧
    (∀ name, (_split_vfs_path path).getLast? = some name →
      (mkdirParent s cwd path (_split_vfs_path path).dropLast = none →
        make_vfs_dir s cwd path mode = none) ∧
      (∀ pid pn,
        mkdirParent s cwd path (_split_vfs_path path).dropLast = some pid →
        s[pid]? = some pn →
        (pn.is_dir = false → make_vfs_dir s cwd path mode = none) ∧
        (dictMem pn.children name = true →
          make_vfs_dir s cwd path mode = none) ∧
        (pn.is_dir = true → dictMem pn.children name = false →
          make_vfs_dir s cwd path mode =
            some (extStore s pid pn name mode, s.length) ∧
          (extStore s pid pn name mode).length = s.length + 1 ∧
          (extStore s pid pn name mode)[s.length]? =
            some ⟨name, true, [], "", mode, some pid⟩ ∧
          (pid < s.length → (extStore s pid pn name mode)[pid]? =
            some { pn with
              children := dictInsert pn.children name s.length }) ∧
          (∀ v, v < s.length → v ≠ pid →
            (extStore s pid pn name mode)[v]? = s[v]?)))) ∧
    (wf s → cwd < s.length → ∀ (s' : Store) (nid : Nat) (mode' : Int),
      make_vfs_dir s cwd path mode = some (s', nid) →
      make_vfs_dir s' cwd path mode' = none) := by
  refine ⟨?_, ?_, ?_⟩
  · intro hsp
    have hlast : (_split_vfs_path path).getLast? = none := by
      rw [hsp]
      rfl
    simp [make_vfs_dir, hlast]
  · intro name hlast
    constructor
    · intro hmp
      simp [make_vfs_dir, hlast, hmp]
    · intro pid pn hmp hpn
      refine ⟨?_, ?_, ?_⟩
      · intro hdir
        simp [make_vfs_dir, hlast, hmp, hpn, hdir]
      · intro hmem
        by_cases hdir : pn.is_dir <;>
          simp [make_vfs_dir, hlast, hmp, hpn, hdir, hmem]
      · intro hdir hmem
        refine ⟨?_, extStore_length s pid pn name mode,
          extStore_get_new s pid pn name mode,
          fun hpid => extStore_get_pid s pid pn name mode hpid,
          fun v hv hvp => extStore_get_old s pid pn name mode hv hvp⟩
        simp [make_vfs_dir, hlast, hmp, hpn, hdir, hmem, extStore, extNode]
  · intro hwf hcwd s' nid mode' h
    exact make_vfs_dir_twice s cwd path mode mode' hwf hcwd s' nid h

/-- C3 witness: on the demo tree, mkdir fails on `/` (no final
segment), on `docs` (exists), on `a/b` (parent missing), on `motd/x`
(parent is a File); `mkdir newdir` succeeds exactly as described and
repeating it fails. -/
theorem mkdir_spec_witness :
    make_vfs_dir demoStore 0 "/" 493 = none ∧
    make_vfs_dir demoStore 0 "docs" 493 = none ∧
    make_vfs_dir demoStore 0 "a/b" 493 = none ∧
    make_vfs_dir demoStore 0 "motd/x" 493 = none ∧
    make_vfs_dir demoStore 0 "newdir" 493 =
      some (extStore demoStore 0
        ⟨"/", true, [("docs", 1), ("motd", 2)], "", 493, none⟩ "newdir" 493,
        4) ∧
    make_vfs_dir (extStore demoStore 0
        ⟨"/", true, [("docs", 1), ("motd", 2)], "", 493, none⟩ "newdir" 493)
      0 "newdir" 755 = none := by
  have hsucc := (((mkdir_spec demoStore 0 "newdir" 493).2.1 "newdir"
    (by decide)).2 0 ⟨"/", true, [("docs", 1), ("motd", 2)], "", 493, none⟩
    (by decide) (by decide)).2.2 (by decide) (by decide)
  refine ⟨(mkdir_spec demoStore 0 "/" 493).1 (by decide),
    (((mkdir_spec demoStore 0 "docs" 493).2.1 "docs" (by decide)).2 0
      ⟨"/", true, [("docs", 1), ("motd", 2)], "", 493, none⟩
      (by decide) (by decide)).2.1 (by decide),
    ((mkdir_spec demoStore 0 "a/b" 493).2.1 "b" (by decide)).1 (by decide),
    (((mkdir_spec demoStore 0 "motd/x" 493).2.1 "x" (by decide)).2 2
      ⟨"motd", false, [], "hello\n", 420, some 0⟩
      (by decide) (by decide)).1 (by decide),
    hsucc.1, ?_⟩
  exact (mkdir_spec demoStore 0 "newdir" 493).2.2 (by decide) (by decide)
    _ 4 755 hsucc.1

/-! ### No command touches the history list -/

theorem history_print_output (st : ShellState) (t : String) :
    (print_output st t).history = st.history := rfl

theorem history_foldl {α : Type} (f : ShellState → α → ShellState)
    (hf : ∀ a x, (f a x).history = a.history) :
    ∀ (l : List α) (st : ShellState), (l.foldl f st).history = st.history := by
  intro l
  induction l with
  | nil => intro st; rfl
  | cons x xs ih =>
    intro st
    simp only [List.foldl_cons]
    rw [ih, hf]

theorem history_lsShow (st : ShellState) (nid : Nat) :
    (lsShow st nid).history = st.history := by
  unfold lsShow
  split
  · rfl
  · split
    · rfl
    · refine history_foldl _ ?_ _ st
      intro a nm
      repeat' split
      all_goals rfl

theorem history_cmd_ls (st : ShellState) (cargs : List String) :
    (cmd_ls st cargs).history = st.history := by
  unfold cmd_ls
  repeat' split
  all_goals first
  | rfl
  | apply history_lsShow

theorem history_cmd_cd (st : ShellState) (cargs : List String) :
    (cmd_cd st cargs).history = st.history := by
  unfold cmd_cd
  dsimp only
  repeat' split
  all_goals rfl

theorem history_cmd_mkdir (st : ShellState) (cargs : List String) :
    (cmd_mkdir st cargs).history = st.history := by
  unfold cmd_mkdir
  repeat' split
  all_goals rfl

theorem history_cmd_chmod (st : ShellState) (cargs : List String) :
    (cmd_chmod st cargs).history = st.history := by
  unfold cmd_chmod
  dsimp only
  repeat' split
  all_goals rfl

theorem history_cmd_history (st : ShellState) (cargs : List String) :
    (cmd_history st cargs).history = st.history := by
  unfold cmd_history
  split
  · rfl
  · exact history_foldl
      (fun acc (p : Nat × String) =>
        print_output acc (toString (p.1 + 1) ++ "  " ++ p.2 ++ "\n"))
      (fun a x => rfl) _ st

theorem history_cmd_exit (st : ShellState) (cargs : List String) :
    (cmd_exit st cargs).history = st.history := by
  unfold cmd_exit
  split
  all_goals rfl

theorem history_calShow (st : ShellState) (y m : Int) :
    (calShow st y m).history = st.history := by
  unfold calShow
  split
  · rfl
  · exact history_foldl
      (fun acc line => print_output acc (line ++ "\n"))
      (fun a x => rfl) _ st

theorem history_cmd_cal (st : ShellState) (cargs : List String) :
    (cmd_cal st cargs).history = st.history := by
  unfold cmd_cal
  repeat' split
  all_goals first
  | rfl
  | apply history_calShow

theorem history_cmd_help (st : ShellState) (cargs : List String) :
    (cmd_help st cargs).history = st.history := by
  unfold cmd_help
  exact history_foldl print_output (fun a x => rfl) _ st

theorem history_cmd_date (st : ShellState) (cargs : List String) :
    (cmd_date st cargs).history = st.history := rfl

theorem history_dispatch (st : ShellState) (cmd : String)
    (cargs : List String) : (dispatch st cmd cargs).history = st.history := by
  unfold dispatch
  split_ifs
  · exact history_cmd_exit st cargs
  · exact history_cmd_ls st cargs
  · exact history_cmd_cd st cargs
  · exact history_cmd_mkdir st cargs
  · exact history_cmd_chmod st cargs
  · exact history_cmd_history st cargs
  · exact history_cmd_date st cargs
  · exact history_cmd_cal st cargs
  · exact history_cmd_help st cargs
  · rfl

/-- Executing a line never modifies the history list (only `on_enter`
and `run_script` append to it, before execution). -/
theorem history_execute_line (st : ShellState) (line : String) :
    (execute_line st line).history = st.history := by
  cases h : shlex_split (expand_vars st.env line) with
  | error e => simp [execute_line, h, history_print_output]
  | ok toks =>
    cases toks with
    | nil => simp [execute_line, h]
    | cons cmd cargs => simp [execute_line, h, history_dispatch]

theorem history_on_enter (st : ShellState) (line : String)
    (hb : isBlankLine line = false) :
    (on_enter st line).history = st.history ++ [line] := by
  unfold on_enter
  rw [hb]
  simp only [Bool.false_eq_true, if_false]
  rw [history_execute_line]
  rfl

theorem history_scriptStep (st : ShellState) (raw : String)
    (hb : isBlankLine (rstripNL raw) = false) :
    (scriptStep st raw).history = st.history ++ [rstripNL raw] := by
  unfold scriptStep
  simp only [hb, Bool.false_eq_true, if_false]
  rw [history_execute_line]
  rfl

/-- C4: after any sequence of non-blank submitted lines — interactive or
script, well-formed or failing — the history is exactly the prior
history extended by those raw lines in order; and the `history` command
renders entry `k` (1-indexed) as exactly the `k`-th stored raw line. -/
theorem history_invariant (st : ShellState) (lines : List String) :
    ((∀ l ∈ lines, isBlankLine l = false) →
      (submitAll st lines).history = st.history ++ lines) ∧
    ((∀ l ∈ lines, isBlankLine l = false ∧ rstripNL l = l) →
      (run_script_lines st lines).history = st.history ++ lines) ∧
    (st.history ≠ [] → (cmd_history st []).output = st.output ++
      st.history.enum.map (fun p => toString (p.1 + 1) ++ "  " ++ p.2 ++ "\n")) := by
  refine ⟨?_, ?_, ?_⟩
  · intro hb
    induction lines generalizing st with
    | nil => simp [submitAll]
    | cons l ls ih =>
      have h1 := hb l (List.mem_cons_self _ _)
      have h2 : ∀ x ∈ ls, isBlankLine x = false :=
        fun x hx => hb x (List.mem_cons_of_mem _ hx)
      unfold submitAll
      simp only [List.foldl_cons]
      have := ih (on_enter st l) h2
      unfold submitAll at this
      rw [this, history_on_enter st l h1]
      simp
  · intro hb
    induction lines generalizing st with
    | nil => simp [run_script_lines]
    | cons l ls ih =>
      have h1 := hb l (List.mem_cons_self _ _)
      have h2 : ∀ x ∈ ls, isBlankLine x = false ∧ rstripNL x = x :=
        fun x hx => hb x (List.mem_cons_of_mem _ hx)
      unfold run_script_lines
      simp only [List.foldl_cons]
      have := ih (scriptStep st l) h2
      unfold run_script_lines at this
      rw [this, history_scriptStep st l (by rw [h1.2]; exact h1.1), h1.2]
      simp
  · intro hne
    unfold cmd_history
    rw [if_neg hne]
    exact foldl_print_output_map _ st.history.enum st

/-- C4 witness: three non-blank lines (one of them an invalid command)
submitted interactively to the demo session leave exactly those three
raw lines in history, and the rendered history display lists them
1-indexed. -/
theorem history_invariant_witness :
    (submitAll demoSt ["ls", "bogus x", "cd docs"]).history =
      ["ls", "bogus x", "cd docs"] ∧
    (run_script_lines demoSt ["ls", "bogus x", "cd docs"]).history =
      ["ls", "bogus x", "cd docs"] ∧
    (cmd_history { demoSt with history := ["ls", "bogus x"] } []).output =
      ["1  ls\n", "2  bogus x\n"] :=
  ⟨((history_invariant demoSt ["ls", "bogus x", "cd docs"]).1
      (by decide)).trans (by decide),
   ((history_invariant demoSt ["ls", "bogus x", "cd docs"]).2.1
      (by decide)).trans (by decide),
   (((history_invariant { demoSt with history := ["ls", "bogus x"] }
      []).2.2 (by decide))).trans (by decide)⟩

end Stage5
